import Mathlib

/-!
Verification development for the asciinema2md repository.

The Python sources are shallowly embedded as executable Lean definitions:

* `terminal.py`   → `Terminal`, `processText`, `writeChar`, `newlineStep`,
  `clearToEol`, `handleJ`, `getOutput`
* `parser.py`     → `parseCastEvents`
* `ansi.py`       → `stripAnsi`
* `direct_extractor.py` → `DE.processEvents` and helpers
* `asciinema2md.py` (post-processing of records) → `postProcess`

Python strings are modelled as `List Char`; Python `int` as `Int` (cursor
coordinates can become negative through `min(len(lines)-1, ...)` when the
line list is empty, so `Nat` would be unfaithful); Python `list` indexing
(including negative indices and `IndexError`) is modelled by `pyGet` /
`pySet` returning `Option`; a raised exception is `none`.

Loops whose counters are not structurally decreasing are written with an
explicit fuel argument chosen large enough that exhaustion is unreachable
(each bound is justified at the definition); this keeps every definition
reducible by the kernel so that concrete runs can be settled by `decide`.
-/

abbrev Str := List Char

/-- Python whitespace characters recognised by `str.strip()` (ASCII range). -/
def pyWs (c : Char) : Bool :=
  c = ' ' || c = '\t' || c = '\n' || c = '\r' || c = '\x0b' || c = '\x0c'

/-- Python `str.lstrip()`. -/
def lstrip (s : Str) : Str := s.dropWhile pyWs

/-- Python `str.rstrip()`. -/
def rstrip (s : Str) : Str := (s.reverse.dropWhile pyWs).reverse

/-- Python `str.strip()`. -/
def pstrip (s : Str) : Str := rstrip (lstrip s)

/-- Python `str.isdigit()` (ASCII digits; the inputs handled here are ASCII). -/
def isdigitS (s : Str) : Bool := !s.isEmpty && s.all Char.isDigit

/-- Python `int()` on a digit string. -/
def parseNatS (s : Str) : Nat := s.foldl (fun a c => a * 10 + (c.toNat - 48)) 0

/-- Resolve a Python list index (negative indices count from the end);
`none` when the index is out of range, i.e. Python raises `IndexError`. -/
def pyIdx (n : Nat) (i : Int) : Option Nat :=
  if 0 ≤ i then (if i < (n : Int) then some i.toNat else none)
  else (if 0 ≤ i + (n : Int) then some (i + (n : Int)).toNat else none)

/-- Python `l[i]` read. -/
def pyGet (l : List α) (i : Int) : Option α := (pyIdx l.length i).bind (l.get? ·)

/-- Python `l[i] = a` assignment. -/
def pySet (l : List α) (i : Int) (a : α) : Option (List α) :=
  (pyIdx l.length i).map (l.set · a)

/-- Python `l[:i]` slice (upper-bound slice; negative bound counts from the end). -/
def pySliceTo (l : List α) (i : Int) : List α :=
  if 0 ≤ i then l.take i.toNat else l.take ((l.length : Int) + i).toNat

theorem pySet_length {l : List α} {i : Int} {a : α} {l' : List α}
    (h : pySet l i a = some l') : l'.length = l.length := by
  unfold pySet at h
  cases hidx : pyIdx l.length i with
  | none => simp [hidx] at h
  | some j => simp [hidx] at h; subst h; simp

/-- `Terminal.__init__` state (`terminal.py`). -/
structure Terminal where
  width : Nat
  height : Nat
  lines : List Str
  scrollback : List Str
  current_line : Int
  cursor_x : Int
  scrollback_size : Nat
deriving Repr, DecidableEq

/-- A freshly constructed `Terminal(width, height)`. -/
def mkTerminal (w h : Nat) : Terminal :=
  { width := w, height := h, lines := [[]], scrollback := [],
    current_line := 0, cursor_x := 0, scrollback_size := 10000 }

/-- `while self.current_line >= len(self.lines): self.lines.append('')`. -/
def padLines (lines : List Str) (cur : Int) : List Str :=
  lines ++ List.replicate (cur + 1 - (lines.length : Int)).toNat []

/-- `while len(line) <= self.cursor_x: line.append(' ')`. -/
def padLine (line : Str) (x : Int) : Str :=
  line ++ List.replicate (x + 1 - (line.length : Int)).toNat ' '

/-- `Terminal._write_char` (`terminal.py` 158-185): pad the line list up to
the cursor row, read the row (Python indexing), pad the row with spaces up
to the cursor column, overwrite (or append) the character, store the row
back, advance the cursor and wrap at `width`. -/
def writeChar (t : Terminal) (ch : Char) : Option Terminal :=
  (pyGet (padLines t.lines t.current_line) t.current_line).bind (fun line0 =>
  (if t.cursor_x < ((padLine line0 t.cursor_x).length : Int)
   then pySet (padLine line0 t.cursor_x) t.cursor_x ch
   else some (padLine line0 t.cursor_x ++ [ch])).bind (fun line =>
  (pySet (padLines t.lines t.current_line) t.current_line line).map (fun lines =>
  if t.cursor_x + 1 ≥ (t.width : Int) then
    if t.current_line < (lines.length : Int) - 1 then
      { t with lines := lines, cursor_x := 0, current_line := t.current_line + 1 }
    else
      -- `self.lines.append(''); self.current_line = len(self.lines) - 1`
      { t with lines := lines ++ [[]], cursor_x := 0,
               current_line := (lines.length : Int) }
  else
    { t with lines := lines, cursor_x := t.cursor_x + 1 })))

/-- Write the same character `n` times through `_write_char` (the tab loop). -/
def writeCharsN : Terminal → Char → Nat → Option Terminal
  | t, _, 0 => some t
  | t, c, n + 1 => (writeChar t c).bind (writeCharsN · c n)

/-- `if len(self.scrollback) > self.scrollback_size: self.scrollback =
self.scrollback[-self.scrollback_size:]`. -/
def trimScrollback (sb : List Str) (cap : Nat) : List Str :=
  if sb.length > cap then sb.drop (sb.length - cap) else sb

/-- The `'\n'` branch of `Terminal.process_text` (`terminal.py` 123-139). -/
def newlineStep (t : Terminal) : Terminal :=
  let t1 :=
    if t.current_line ≥ (t.height : Int) - 1 then
      match t.lines with
      | [] => t
      | l0 :: rest =>
        { t with scrollback := trimScrollback (t.scrollback ++ [l0]) t.scrollback_size,
                 lines := rest }
    else
      let lines :=
        if t.current_line ≥ (t.lines.length : Int) - 1 then t.lines ++ [[]] else t.lines
      { t with lines := lines, current_line := t.current_line + 1 }
  { t1 with cursor_x := 0 }

/-- `Terminal._clear_to_eol` (`terminal.py` 187-193). -/
def clearToEol (t : Terminal) : Option Terminal :=
  if t.current_line < (t.lines.length : Int) then
    (pyGet t.lines t.current_line).bind (fun line =>
      if t.cursor_x < (line.length : Int) then
        (pySet t.lines t.current_line (pySliceTo line t.cursor_x)).map
          (fun lines => { t with lines := lines })
      else some t)
  else some t

/-- `while self.current_line < len(self.lines) - 1: self.current_line += 1;
self.lines[self.current_line] = ''` (the non-"2" branch of `J`).  The loop
runs at most `len-1-cur` times when `cur ≥ -len-1` (so at most `2*len`
times), and otherwise fails at the first assignment, so the fuel
`2*len + 2` is never exhausted. -/
def blankBelowGo : Nat → List Str → Int → Option (List Str × Int)
  | 0, lines, cur => some (lines, cur)
  | f + 1, lines, cur =>
    if cur < (lines.length : Int) - 1 then
      match pySet lines (cur + 1) ([] : Str) with
      | none => none
      | some lines' => blankBelowGo f lines' (cur + 1)
    else some (lines, cur)

def blankBelow (lines : List Str) (cur : Int) : Option (List Str × Int) :=
  blankBelowGo (2 * lines.length + 2) lines cur

/-- The `'J'` command of `Terminal.process_text` (`terminal.py` 93-105). -/
def handleJ (t : Terminal) (params : List Str) : Option Terminal :=
  if params ≠ [] ∧ params.headD [] = ['2'] then
    some { t with lines := [[]], current_line := 0, cursor_x := 0 }
  else
    (clearToEol t).bind (fun t1 =>
      (blankBelow t1.lines t1.current_line).map (fun p =>
        { t1 with lines := p.1, current_line := p.2 }))

/-- `int(params[0]) if params and params[0].isdigit() else 1`. -/
def param1 (params : List Str) : Int :=
  match params with
  | [] => 1
  | p :: _ => if isdigitS p then (parseNatS p : Int) else 1

/-- `int(params[0]) - 1 if params and params[0].isdigit() else 0`. -/
def paramRow (params : List Str) : Int :=
  match params with
  | [] => 0
  | p :: _ => if isdigitS p then (parseNatS p : Int) - 1 else 0

/-- `int(params[1]) - 1 if len(params) > 1 and params[1].isdigit() else 0`. -/
def paramCol (params : List Str) : Int :=
  if params.length > 1 ∧ isdigitS (params.getD 1 []) then
    (parseNatS (params.getD 1 []) : Int) - 1
  else 0

/-- Dispatch on the CSI final byte (`terminal.py` 58-105).  Final bytes
scanned but not handled (`E F G S T m s u`) leave the state unchanged. -/
def applyCSI (t : Terminal) (cmd : Char) (params : List Str) : Option Terminal :=
  if cmd = 'A' then
    some { t with current_line := max 0 (t.current_line - param1 params) }
  else if cmd = 'B' then
    some { t with current_line := min ((t.lines.length : Int) - 1) (t.current_line + param1 params) }
  else if cmd = 'C' then
    some { t with cursor_x := t.cursor_x + param1 params }
  else if cmd = 'D' then
    some { t with cursor_x := max 0 (t.cursor_x - param1 params) }
  else if cmd = 'H' ∨ cmd = 'f' then
    some { t with current_line := max 0 (min (paramRow params) ((t.lines.length : Int) - 1)),
                  cursor_x := max 0 (paramCol params) }
  else if cmd = 'K' then clearToEol t
  else if cmd = 'J' then handleJ t params
  else some t

/-- The CSI final-byte set `'ABCDEFGHJKSTfmsu'` of the parameter-scanning loop. -/
def csiFinal (c : Char) : Bool :=
  (['A','B','C','D','E','F','G','H','J','K','S','T','f','m','s','u'] : List Char).contains c

/-- The parameter-scanning loop of `process_text`: collect characters until a
final byte; returns (collected, rest-beginning-at-final-byte-if-any). -/
def csiScan : List Char → (List Char × List Char)
  | [] => ([], [])
  | c :: cs =>
    if csiFinal c then ([], c :: cs)
    else
      let r := csiScan cs
      (c :: r.1, r.2)

theorem csiScan_rest_le (cs : List Char) : (csiScan cs).2.length ≤ cs.length := by
  induction cs with
  | nil => simp [csiScan]
  | cons c cs ih =>
    simp only [csiScan]
    split
    · simp
    · simpa using Nat.le_succ_of_le ih

/-- The OSC skip loop: drop everything up to and including the first BEL. -/
def oscSkip : List Char → List Char
  | [] => []
  | c :: cs => if c = '\x07' then cs else oscSkip cs

theorem oscSkip_le (cs : List Char) : (oscSkip cs).length ≤ cs.length := by
  induction cs with
  | nil => simp [oscSkip]
  | cons c cs ih =>
    simp only [oscSkip]
    split
    · simp
    · exact Nat.le_succ_of_le ih

/-- Split the scanned CSI parameter text on `;`, keeping the semantics of the
source's accumulator (`param_str` is appended only when non-empty). -/
def splitOnChar (sep : Char) : Str → List Str
  | [] => [[]]
  | c :: cs =>
    let r := splitOnChar sep cs
    if c = sep then [] :: r
    else
      match r with
      | [] => [[c]]
      | h :: rest => (c :: h) :: rest

def csiParams (scanned : List Char) : List Str :=
  (splitOnChar ';' scanned).filter (fun p => p ≠ [])

/-- One iteration of the `while i < len(text)` loop of `Terminal.process_text`:
dispatch on the character `c` at the loop index, consume any escape-sequence
lookahead from `cs`, and return the updated state and the remaining
characters; `none` is a raised exception. -/
def pstep (t : Terminal) (c : Char) (cs : List Char) : Option (Terminal × List Char) :=
  if c = '\x1b' then
    match cs with
    | [] => some (t, [])            -- `i += 1; if i >= len(text): break`
    | d :: cs' =>
      if d = '[' then
        match (csiScan cs').2 with
        | [] => some (t, [])        -- sequence ran off the end of the chunk
        | cmd :: rest => (applyCSI t cmd (csiParams (csiScan cs').1)).map (·, rest)
      else if d = ']' then some (t, oscSkip cs')
      else some (t, cs')            -- other escape: one more byte consumed
  else if c = '\r' then some ({ t with cursor_x := 0 }, cs)
  else if c = '\n' then some (newlineStep t, cs)
  else if c = '\x08' then
    some ((if t.cursor_x > 0 then { t with cursor_x := t.cursor_x - 1 } else t), cs)
  else if c = '\t' then
    -- `spaces = 8 - (self.cursor_x % 8)`, written through `_write_char`
    (writeCharsN t ' ' (8 - t.cursor_x.emod 8).toNat).map (·, cs)
  else (writeChar t c).map (·, cs)

theorem pstep_rest_le {t : Terminal} {c : Char} {cs : List Char} {t' : Terminal}
    {rest : List Char} (h : pstep t c cs = some (t', rest)) :
    rest.length ≤ cs.length := by
  unfold pstep at h
  split at h
  · cases cs with
    | nil =>
      simp only [Option.some.injEq, Prod.mk.injEq] at h
      simp [← h.2]
    | cons d cs' =>
      simp only at h
      split at h
      · split at h
        · simp only [Option.some.injEq, Prod.mk.injEq] at h
          simp [← h.2]
        · rename_i rest0 hscan
          cases happ : applyCSI t _ _ with
          | none => rw [happ] at h; simp at h
          | some t2 =>
            rw [happ] at h
            simp at h
            have hlen := csiScan_rest_le cs'
            rw [hscan] at hlen
            simp only [List.length_cons] at hlen
            rw [← h.2]
            simp only [List.length_cons]
            omega
      · split at h
        · simp only [Option.some.injEq, Prod.mk.injEq] at h
          rw [← h.2]
          exact Nat.le_succ_of_le (oscSkip_le cs')
        · simp only [Option.some.injEq, Prod.mk.injEq] at h
          rw [← h.2]
          exact Nat.le_succ cs'.length
  · split at h
    · simp only [Option.some.injEq, Prod.mk.injEq] at h; simp [← h.2]
    · split at h
      · simp only [Option.some.injEq, Prod.mk.injEq] at h; simp [← h.2]
      · split at h
        · simp only [Option.some.injEq, Prod.mk.injEq] at h; simp [← h.2]
        · split at h
          · cases hw : writeCharsN t ' ' (8 - t.cursor_x.emod 8).toNat with
            | none => rw [hw] at h; simp at h
            | some t2 =>
              rw [hw] at h
              simp at h
              simp [← h.2]
          · cases hw : writeChar t c with
            | none => rw [hw] at h; simp at h
            | some t2 =>
              rw [hw] at h
              simp at h
              simp [← h.2]

/-- The `while i < len(text)` loop with fuel; each iteration consumes at
least one character, so fuel `cs.length` can never be exhausted (the
`0, cons` branch is unreachable). -/
def ptGo : Nat → Terminal → List Char → Option Terminal
  | _, t, [] => some t
  | 0, t, _ :: _ => some t
  | f + 1, t, c :: cs =>
    match pstep t c cs with
    | none => none
    | some (t', rest) => ptGo f t' rest

/-- `Terminal.process_text` (`terminal.py` 19-156). -/
def processText (t : Terminal) (cs : List Char) : Option Terminal :=
  ptGo cs.length t cs

/-- Fuel irrelevance: any fuel at least the number of remaining characters
computes the same result. -/
theorem ptGo_fuel (f g : Nat) (t : Terminal) (cs : List Char)
    (hf : cs.length ≤ f) (hg : cs.length ≤ g) : ptGo f t cs = ptGo g t cs := by
  induction f using Nat.strong_induction_on generalizing g t cs with
  | _ f ih =>
    match cs with
    | [] => cases f <;> cases g <;> rfl
    | c :: cs' =>
      match f, g with
      | f + 1, g + 1 =>
        simp only [ptGo]
        cases h : pstep t c cs' with
        | none => rfl
        | some p =>
          obtain ⟨t', rest⟩ := p
          have hr := pstep_rest_le h
          simp at hf hg
          exact ih f (Nat.lt_succ_self f) g t' rest (by omega) (by omega)

theorem processText_nil (t : Terminal) : processText t [] = some t := rfl

theorem processText_cons (t : Terminal) (c : Char) (cs : List Char) :
    processText t (c :: cs) =
      match pstep t c cs with
      | none => none
      | some (t', rest) => processText t' rest := by
  unfold processText
  simp only [List.length_cons, ptGo]
  cases h : pstep t c cs with
  | none => rfl
  | some p =>
    obtain ⟨t', rest⟩ := p
    exact ptGo_fuel _ _ _ _ (pstep_rest_le h) (le_refl _)

/-- `Terminal.get_output` (`terminal.py` 195-202). -/
def joinNL : List Str → Str
  | [] => []
  | [s] => s
  | s :: rest => s ++ '\n' :: joinNL rest

def dropTrailingBlank (l : List Str) : List Str :=
  (l.reverse.dropWhile (fun s => (pstrip s).isEmpty)).reverse

def getOutput (t : Terminal) : Str :=
  joinNL (dropTrailingBlank (t.scrollback ++ t.lines))

/-- An asciinema event `(timestamp, event_type, text)`.  Timestamps are
modelled as integers (the claims under study only involve events whose
timestamps are integral, and the code only compares and sorts them). -/
abbrev Event := Int × Str × Str

/-- The replay loop of `asciinema2md.py` 183-185: feed every `'o'` event's
payload through `Terminal.process_text`. -/
def feedEvents (t : Terminal) : List Event → Option Terminal
  | [] => some t
  | (_, et, tx) :: rest =>
    if et = "o".toList then (processText t tx).bind (fun t' => feedEvents t' rest)
    else feedEvents t rest

/-! ### Cursor-column invariant machinery (claim C3) -/

theorem param1_nonneg (params : List Str) : 0 ≤ param1 params := by
  unfold param1
  match params with
  | [] => decide
  | p :: _ =>
    dsimp only
    split
    · exact Int.natCast_nonneg _
    · decide

theorem writeChar_cursor_cases {t : Terminal} {ch : Char} {t' : Terminal}
    (h : writeChar t ch = some t') :
    t'.cursor_x = 0 ∨ t'.cursor_x = t.cursor_x + 1 := by
  unfold writeChar at h
  cases hg : pyGet (padLines t.lines t.current_line) t.current_line with
  | none => rw [hg] at h; simp at h
  | some line0 =>
    rw [hg] at h
    simp only [Option.some_bind] at h
    cases hs : (if t.cursor_x < ((padLine line0 t.cursor_x).length : Int)
        then pySet (padLine line0 t.cursor_x) t.cursor_x ch
        else some (padLine line0 t.cursor_x ++ [ch])) with
    | none => rw [hs] at h; simp at h
    | some line =>
      rw [hs] at h
      simp only [Option.some_bind] at h
      cases h2 : pySet (padLines t.lines t.current_line) t.current_line line with
      | none => rw [h2] at h; simp at h
      | some lines2 =>
        rw [h2] at h
        simp only [Option.map_some'] at h
        rw [Option.some_inj] at h
        split at h
        · split at h <;> (rw [← h]; left; rfl)
        · rw [← h]; right; rfl

theorem writeCharsN_cursor {t : Terminal} {c : Char} {n : Nat} {t' : Terminal}
    (h : writeCharsN t c n = some t') (h0 : 0 ≤ t.cursor_x) : 0 ≤ t'.cursor_x := by
  induction n generalizing t with
  | zero => simp [writeCharsN] at h; rw [← h]; exact h0
  | succ n ih =>
    simp only [writeCharsN] at h
    cases hw : writeChar t c with
    | none => rw [hw] at h; simp at h
    | some t1 =>
      rw [hw] at h
      simp only [Option.some_bind] at h
      have := writeChar_cursor_cases hw
      exact ih h (by omega)

theorem clearToEol_frame {t : Terminal} {t' : Terminal}
    (h : clearToEol t = some t') :
    t'.cursor_x = t.cursor_x ∧ t'.current_line = t.current_line ∧
    t'.scrollback = t.scrollback ∧ t'.height = t.height ∧
    t'.lines.length = t.lines.length := by
  unfold clearToEol at h
  split at h
  · cases hg : pyGet t.lines t.current_line with
    | none => rw [hg] at h; simp at h
    | some line =>
      rw [hg] at h
      simp only [Option.some_bind] at h
      split at h
      · cases hs : pySet t.lines t.current_line (pySliceTo line t.cursor_x) with
        | none => rw [hs] at h; simp at h
        | some lines2 =>
          rw [hs] at h
          simp only [Option.map_some', Option.some.injEq] at h
          rw [← h]
          exact ⟨rfl, rfl, rfl, rfl, pySet_length hs⟩
      · rw [Option.some_inj] at h
        rw [← h]; exact ⟨rfl, rfl, rfl, rfl, rfl⟩
  · rw [Option.some_inj] at h
    rw [← h]; exact ⟨rfl, rfl, rfl, rfl, rfl⟩

theorem handleJ_cursor {t : Terminal} {params : List Str} {t' : Terminal}
    (h : handleJ t params = some t') :
    t'.cursor_x = 0 ∨ t'.cursor_x = t.cursor_x := by
  unfold handleJ at h
  split at h
  · simp at h; rw [← h]; left; rfl
  · cases hc : clearToEol t with
    | none => rw [hc] at h; simp at h
    | some t1 =>
      rw [hc] at h
      simp only [Option.some_bind] at h
      cases hb : blankBelow t1.lines t1.current_line with
      | none => rw [hb] at h; simp at h
      | some p =>
        rw [hb] at h
        simp only [Option.map_some', Option.some.injEq] at h
        rw [← h]
        right
        exact (clearToEol_frame hc).1

theorem applyCSI_cursor {t : Terminal} {cmd : Char} {params : List Str} {t' : Terminal}
    (h : applyCSI t cmd params = some t') (h0 : 0 ≤ t.cursor_x) : 0 ≤ t'.cursor_x := by
  unfold applyCSI at h
  split at h
  · rw [Option.some_inj] at h; rw [← h]; exact h0
  split at h
  · rw [Option.some_inj] at h; rw [← h]; exact h0
  split at h
  · rw [Option.some_inj] at h; rw [← h]
    exact Int.add_nonneg h0 (param1_nonneg params)
  split at h
  · rw [Option.some_inj] at h; rw [← h]
    exact le_max_left 0 _
  split at h
  · rw [Option.some_inj] at h; rw [← h]
    exact le_max_left 0 _
  split at h
  · have hc := clearToEol_frame h; omega
  split at h
  · rcases handleJ_cursor h with h1 | h1 <;> omega
  rw [Option.some_inj] at h; rw [← h]; exact h0

theorem newlineStep_cursor (t : Terminal) : (newlineStep t).cursor_x = 0 := rfl

theorem pstep_cursor {t : Terminal} {c : Char} {cs : List Char} {t' : Terminal}
    {rest : List Char} (h : pstep t c cs = some (t', rest)) (h0 : 0 ≤ t.cursor_x) :
    0 ≤ t'.cursor_x := by
  unfold pstep at h
  split at h
  · cases cs with
    | nil => simp at h; rw [← h.1]; exact h0
    | cons d cs' =>
      simp only at h
      split at h
      · split at h
        · simp at h; rw [← h.1]; exact h0
        · cases happ : applyCSI t _ _ with
          | none => rw [happ] at h; simp at h
          | some t2 =>
            rw [happ] at h; simp at h
            rw [← h.1]
            exact applyCSI_cursor happ h0
      · split at h
        · simp at h; rw [← h.1]; exact h0
        · simp at h; rw [← h.1]; exact h0
  · split at h
    · simp at h; rw [← h.1]
    · split at h
      · simp at h; rw [← h.1]; simp [newlineStep_cursor]
      · split at h
        · simp at h; rw [← h.1]
          split
          · dsimp only; omega
          · omega
        · split at h
          · cases hw : writeCharsN t ' ' (8 - t.cursor_x.emod 8).toNat with
            | none => rw [hw] at h; simp at h
            | some t2 =>
              rw [hw] at h; simp at h
              rw [← h.1]
              exact writeCharsN_cursor hw h0
          · cases hw : writeChar t c with
            | none => rw [hw] at h; simp at h
            | some t2 =>
              rw [hw] at h; simp at h
              rw [← h.1]
              rcases writeChar_cursor_cases hw with h1 | h1 <;> omega

theorem ptGo_cursor : ∀ (f : Nat) (t : Terminal) (cs : List Char) (t' : Terminal),
    ptGo f t cs = some t' → 0 ≤ t.cursor_x → 0 ≤ t'.cursor_x := by
  intro f
  induction f with
  | zero =>
    intro t cs t' h h0
    cases cs <;> (simp [ptGo] at h; rw [← h]; exact h0)
  | succ f ih =>
    intro t cs t' h h0
    cases cs with
    | nil => simp [ptGo] at h; rw [← h]; exact h0
    | cons c cs' =>
      simp only [ptGo] at h
      cases hp : pstep t c cs' with
      | none => rw [hp] at h; simp at h
      | some p =>
        obtain ⟨t1, rest⟩ := p
        rw [hp] at h
        exact ih t1 rest t' h (pstep_cursor hp h0)

/-- C3 (amended): for every character stream fed to a freshly constructed
grid, if processing succeeds then the final cursor column is nonnegative.
(The claimed row bounds `0 <= cursor.row < height` do not hold; see the
counterexample.)  Since the stream is arbitrary, this holds after every
prefix, i.e. after each directive. -/
theorem C3_theorem (w h : Nat) (cs : List Char) (t' : Terminal)
    (hp : processText (mkTerminal w h) cs = some t') : 0 ≤ t'.cursor_x :=
  ptGo_cursor _ _ _ _ hp (le_refl 0)

theorem C3_witness :
    (0 : Int) ≤ (⟨2, 1, [['a','b'],[]], [], 1, 0, 10000⟩ : Terminal).cursor_x :=
  C3_theorem 2 1 "ab".toList ⟨2, 1, [['a','b'],[]], [], 1, 0, 10000⟩ (by decide)

/-- C3 counterexample: on a fresh 2x1 grid, writing `ab` wraps the cursor to
row 1, so after these directives the cursor row equals the height and the
claimed invariant `cursor.row < height` is violated. -/
theorem C3_counterexample :
    processText (mkTerminal 2 1) "ab".toList =
      some ⟨2, 1, [['a','b'],[]], [], 1, 0, 10000⟩ ∧
    ¬ ((⟨2, 1, [['a','b'],[]], [], 1, 0, 10000⟩ : Terminal).current_line <
        ((⟨2, 1, [['a','b'],[]], [], 1, 0, 10000⟩ : Terminal).height : Int)) := by
  decide

/-- C2 (amended): the line-feed directive scrolls (evicting the top visible
line into the scrollback, trimmed at the cap) whenever the cursor row is at
or beyond `height - 1`, and otherwise advances the row by one, appending a
blank line when the cursor sits on the last stored line; in both cases the
cursor column is reset to 0 (not left unchanged as claimed). -/
theorem C2_theorem (t : Terminal) :
    (newlineStep t).cursor_x = 0 ∧
    (newlineStep t).width = t.width ∧
    (newlineStep t).height = t.height ∧
    ((t.height : Int) - 1 ≤ t.current_line →
      (newlineStep t).current_line = t.current_line ∧
      (newlineStep t).lines = t.lines.tail ∧
      (newlineStep t).scrollback =
        (match t.lines with
         | [] => t.scrollback
         | l0 :: _ => trimScrollback (t.scrollback ++ [l0]) t.scrollback_size)) ∧
    (t.current_line < (t.height : Int) - 1 →
      (newlineStep t).current_line = t.current_line + 1 ∧
      (newlineStep t).scrollback = t.scrollback ∧
      (newlineStep t).lines =
        (if (t.lines.length : Int) - 1 ≤ t.current_line then t.lines ++ [[]]
         else t.lines)) := by
  obtain ⟨w, hh, L, sb, cur, x, cap⟩ := t
  refine ⟨rfl, ?_, ?_, ?_, ?_⟩
  · unfold newlineStep
    dsimp only
    split
    · cases L <;> rfl
    · rfl
  · unfold newlineStep
    dsimp only
    split
    · cases L <;> rfl
    · rfl
  · intro hge
    unfold newlineStep
    dsimp only at hge ⊢
    rw [if_pos (show cur ≥ (hh : Int) - 1 by omega)]
    cases L with
    | nil => exact ⟨rfl, rfl, rfl⟩
    | cons l0 rest => exact ⟨rfl, rfl, rfl⟩
  · intro hlt
    unfold newlineStep
    dsimp only at hlt ⊢
    rw [if_neg (show ¬ cur ≥ (hh : Int) - 1 by omega)]
    exact ⟨rfl, rfl, rfl⟩

theorem C2_witness :
    (newlineStep ⟨80, 24, [['x']], [], 23, 5, 10000⟩).cursor_x = 0 ∧
    (newlineStep ⟨80, 24, [['x']], [], 23, 5, 10000⟩).current_line = 23 ∧
    (newlineStep ⟨80, 24, [['x']], [], 23, 5, 10000⟩).lines = [] ∧
    (newlineStep ⟨80, 24, [['x']], [], 23, 5, 10000⟩).scrollback = [['x']] := by
  have h := C2_theorem ⟨80, 24, [['x']], [], 23, 5, 10000⟩
  have h4 := h.2.2.2.1 (by decide)
  exact ⟨h.1, h4.1, h4.2.1.trans (by decide), h4.2.2.trans (by decide)⟩

/-- C2 counterexample: after typing `ab` the cursor column is 2; the claim
says a line feed leaves the column unchanged, but the code resets it to 0. -/
theorem C2_counterexample :
    (processText (mkTerminal 80 24) "ab".toList).map Terminal.cursor_x = some 2 ∧
    (processText (mkTerminal 80 24) "ab\n".toList).map Terminal.cursor_x = some 0 ∧
    (2 : Int) ≠ 0 := by decide

/-- C5: the code can raise.  On a fresh 80x2 terminal, three line feeds
evict every visible line (the line list becomes empty with the cursor row
still at 1); `ESC [ B` then sets `current_line = min(len(lines)-1, 2) = -1`,
and writing `a` evaluates `self.lines[-1]` on an empty list, raising
`IndexError` — contradicting the claim that no operation ever raises. -/
theorem C5_theorem :
    processText (mkTerminal 80 2) "\n\n\n\x1b[Ba".toList = none := by decide

/-- C7: replay is deterministic — two independently constructed fresh grids
of the same geometry fed the same event sequence produce identical final
snapshots. -/
theorem C7_theorem (w h : Nat) (evs : List Event) (t1 t2 : Terminal)
    (h1 : t1 = mkTerminal w h) (h2 : t2 = mkTerminal w h) :
    (feedEvents t1 evs).map getOutput = (feedEvents t2 evs).map getOutput := by
  subst h1; subst h2; rfl

theorem C7_witness :
    (feedEvents (mkTerminal 80 24) [(0, "o".toList, "hi".toList)]).map getOutput =
      (feedEvents (mkTerminal 80 24) [(0, "o".toList, "hi".toList)]).map getOutput :=
  C7_theorem 80 24 [(0, "o".toList, "hi".toList)] _ _ rfl rfl

/-! ### Chunk-boundary analysis (claim C4) -/

/-- A chunk is "escape-closed" when every escape sequence started in it is
completed inside it (CSI reaches its final byte, OSC reaches BEL, a lone
`ESC` is followed by at least one byte).  Each step consumes at least one
character, so fuel equal to the length suffices. -/
def chunkSafeGo : Nat → List Char → Bool
  | _, [] => true
  | 0, _ :: _ => false
  | f + 1, c :: cs =>
    if c = '\x1b' then
      match cs with
      | [] => false
      | d :: cs' =>
        if d = '[' then
          match (csiScan cs').2 with
          | [] => false
          | _ :: rest => chunkSafeGo f rest
        else if d = ']' then
          if cs'.contains '\x07' then chunkSafeGo f (oscSkip cs') else false
        else chunkSafeGo f cs'
    else chunkSafeGo f cs

def chunkSafe (a : List Char) : Bool := chunkSafeGo a.length a

theorem chunkSafeGo_fuel (f : Nat) : ∀ (g : Nat) (cs : List Char),
    cs.length ≤ f → cs.length ≤ g → chunkSafeGo f cs = chunkSafeGo g cs := by
  induction f using Nat.strong_induction_on with
  | _ f ih =>
    intro g cs hf hg
    match cs with
    | [] => cases f <;> cases g <;> rfl
    | c :: cs0 =>
      match f, g with
      | f + 1, g + 1 =>
        simp only [List.length_cons, Nat.add_le_add_iff_right] at hf hg
        simp only [chunkSafeGo]
        split
        · match cs0, hf, hg with
          | [], _, _ => rfl
          | d :: cs', hf, hg =>
            simp only
            split
            · cases hscan : (csiScan cs').2 with
              | nil => rfl
              | cons x rest =>
                have hlen := csiScan_rest_le cs'
                rw [hscan] at hlen
                simp only [List.length_cons] at hf hg hlen
                exact ih f (Nat.lt_succ_self f) g rest (by omega) (by omega)
            · split
              · split
                · have := oscSkip_le cs'
                  simp only [List.length_cons] at hf hg
                  exact ih f (Nat.lt_succ_self f) g (oscSkip cs') (by omega) (by omega)
                · rfl
              · simp only [List.length_cons] at hf hg
                exact ih f (Nat.lt_succ_self f) g cs' (by omega) (by omega)
        · exact ih f (Nat.lt_succ_self f) g cs0 (by omega) (by omega)

theorem csiScan_append (b : List Char) : ∀ (l : List Char), (csiScan l).2 ≠ [] →
    csiScan (l ++ b) = ((csiScan l).1, (csiScan l).2 ++ b) := by
  intro l
  induction l with
  | nil => intro h; simp [csiScan] at h
  | cons c cs ih =>
    intro h
    by_cases hc : csiFinal c
    · simp [csiScan, hc]
    · simp only [List.cons_append, csiScan, hc, Bool.false_eq_true, if_false] at h ⊢
      simp [ih h]

theorem oscSkip_append (b : List Char) : ∀ (l : List Char), l.contains '\x07' = true →
    oscSkip (l ++ b) = oscSkip l ++ b := by
  intro l
  induction l with
  | nil => intro h; simp at h
  | cons c cs ih =>
    intro h
    by_cases hc : c = '\x07'
    · simp [oscSkip, hc]
    · simp only [List.cons_append, oscSkip, hc, if_false]
      apply ih
      simp only [List.contains_cons, Bool.or_eq_true, beq_iff_eq] at h
      rcases h with h1 | h1
      · exact absurd h1.symm hc
      · exact h1

/-- Processing one directive from `a ++ b` stays inside `a` when the chunk
`c :: a2` is escape-closed: the state change is the same as on `a` alone and
the remainder is the remainder within `a` followed by `b`. -/
theorem pstep_append {c : Char} {a2 : List Char} (t : Terminal) (b : List Char)
    (hsafe : chunkSafe (c :: a2) = true) :
    pstep t c (a2 ++ b) = (pstep t c a2).map (fun p => (p.1, p.2 ++ b)) := by
  unfold chunkSafe at hsafe
  simp only [List.length_cons, chunkSafeGo] at hsafe
  by_cases hc : c = '\x1b'
  · rw [if_pos hc] at hsafe
    cases a2 with
    | nil => simp at hsafe
    | cons d cs' =>
      simp only at hsafe
      unfold pstep
      rw [if_pos hc, if_pos hc]
      simp only [List.cons_append]
      by_cases hd : d = '['
      · rw [if_pos hd] at hsafe
        rw [if_pos hd, if_pos hd]
        cases hscan : (csiScan cs').2 with
        | nil => rw [hscan] at hsafe; simp at hsafe
        | cons cmd rest =>
          rw [csiScan_append b cs' (by rw [hscan]; simp)]
          simp only [hscan, List.cons_append]
          cases applyCSI t cmd (csiParams (csiScan cs').1) <;> rfl
      · by_cases hd2 : d = ']'
        · rw [if_neg hd, if_pos hd2] at hsafe
          rw [if_neg hd, if_pos hd2, if_neg hd, if_pos hd2]
          by_cases hbel : cs'.contains '\x07' = true
          · rw [oscSkip_append b cs' hbel]; rfl
          · rw [if_neg hbel] at hsafe; simp at hsafe
        · rw [if_neg hd, if_neg hd2, if_neg hd, if_neg hd2]
          rfl
  · unfold pstep
    rw [if_neg hc, if_neg hc]
    by_cases h1 : c = '\r'
    · rw [if_pos h1, if_pos h1]; rfl
    rw [if_neg h1, if_neg h1]
    by_cases h2 : c = '\n'
    · rw [if_pos h2, if_pos h2]; rfl
    rw [if_neg h2, if_neg h2]
    by_cases h3 : c = '\x08'
    · rw [if_pos h3, if_pos h3]; rfl
    rw [if_neg h3, if_neg h3]
    by_cases h4 : c = '\t'
    · rw [if_pos h4, if_pos h4]
      cases writeCharsN t ' ' (8 - t.cursor_x.emod 8).toNat <;> rfl
    · rw [if_neg h4, if_neg h4]
      cases writeChar t c <;> rfl

/-- The remainder left by one directive of an escape-closed chunk is again
escape-closed. -/
theorem chunkSafe_rest {t : Terminal} {c : Char} {a2 : List Char} {t1 : Terminal}
    {r : List Char} (hsafe : chunkSafe (c :: a2) = true)
    (hp : pstep t c a2 = some (t1, r)) : chunkSafe r = true := by
  unfold chunkSafe at hsafe ⊢
  simp only [List.length_cons, chunkSafeGo] at hsafe
  unfold pstep at hp
  by_cases hc : c = '\x1b'
  · rw [if_pos hc] at hsafe hp
    cases a2 with
    | nil => simp at hsafe
    | cons d cs' =>
      simp only at hsafe hp
      by_cases hd : d = '['
      · rw [if_pos hd] at hsafe hp
        cases hscan : (csiScan cs').2 with
        | nil => rw [hscan] at hsafe; simp at hsafe
        | cons cmd rest =>
          rw [hscan] at hsafe hp
          simp only at hp
          cases happ : applyCSI t cmd (csiParams (csiScan cs').1) with
          | none => rw [happ] at hp; simp at hp
          | some t2 =>
            rw [happ] at hp
            simp at hp
            rw [← hp.2]
            have hlen := csiScan_rest_le cs'
            rw [hscan] at hlen
            simp only [List.length_cons] at hlen
            rw [chunkSafeGo_fuel rest.length (cs'.length + 1) rest (le_refl _) (by omega)]
            exact hsafe
      · by_cases hd2 : d = ']'
        · rw [if_neg hd, if_pos hd2] at hsafe hp
          by_cases hbel : cs'.contains '\x07' = true
          · rw [if_pos hbel] at hsafe
            simp at hp
            rw [← hp.2]
            have := oscSkip_le cs'
            rw [chunkSafeGo_fuel (oscSkip cs').length (cs'.length + 1) (oscSkip cs')
              (le_refl _) (by omega)]
            exact hsafe
          · rw [if_neg hbel] at hsafe; simp at hsafe
        · rw [if_neg hd, if_neg hd2] at hsafe hp
          simp at hp
          rw [← hp.2]
          rw [chunkSafeGo_fuel cs'.length (cs'.length + 1) cs' (le_refl _) (by omega)]
          exact hsafe
  · rw [if_neg hc] at hsafe hp
    have hrest : r = a2 := by
      split at hp
      · simp at hp; exact hp.2.symm
      · split at hp
        · simp at hp; exact hp.2.symm
        · split at hp
          · simp at hp; exact hp.2.symm
          · split at hp
            · cases hw : writeCharsN t ' ' (8 - t.cursor_x.emod 8).toNat with
              | none => rw [hw] at hp; simp at hp
              | some t2 => rw [hw] at hp; simp at hp; exact hp.2.symm
            · cases hw : writeChar t c with
              | none => rw [hw] at hp; simp at hp
              | some t2 => rw [hw] at hp; simp at hp; exact hp.2.symm
    subst hrest
    exact hsafe

theorem processText_append : ∀ (n : Nat) (a : List Char), a.length ≤ n →
    ∀ (t : Terminal) (b : List Char), chunkSafe a = true →
    processText t (a ++ b) = (processText t a).bind (fun t1 => processText t1 b) := by
  intro n
  induction n with
  | zero =>
    intro a ha t b h
    match a, ha with
    | [], _ => simp [processText_nil]
  | succ n ih =>
    intro a ha t b h
    match a with
    | [] => simp [processText_nil]
    | c :: a2 =>
      rw [List.cons_append, processText_cons, processText_cons]
      rw [pstep_append t b h]
      cases hp : pstep t c a2 with
      | none => simp
      | some p =>
        obtain ⟨t1, r⟩ := p
        simp only [Option.map_some']
        have hr := pstep_rest_le hp
        simp only [List.length_cons] at ha
        exact ih r (by omega) t1 b (chunkSafe_rest h hp)

/-- C4 (amended): the decoder keeps no continuation token, so chunk-boundary
invariance holds exactly when the first chunk is escape-closed (no escape
sequence spans the boundary): feeding the two chunks successively then
equals feeding the concatenation.  A split inside an escape sequence changes
the result (see the counterexample). -/
theorem C4_theorem (t : Terminal) (a b : List Char) (h : chunkSafe a = true) :
    processText t (a ++ b) = (processText t a).bind (fun t1 => processText t1 b) :=
  processText_append a.length a (le_refl _) t b h

theorem C4_witness :
    chunkSafe "ab".toList = true ∧
    processText (mkTerminal 80 24) ("ab".toList ++ "cd".toList) =
      (processText (mkTerminal 80 24) "ab".toList).bind
        (fun t1 => processText t1 "cd".toList) :=
  ⟨by decide, C4_theorem (mkTerminal 80 24) "ab".toList "cd".toList (by decide)⟩

/-- C4 counterexample: splitting the stream `ESC A` between the two bytes
changes the final grid (the lone `ESC` at a chunk end is dropped and `A` is
then printed as text), so chunk-boundary invariance fails in general: there
is no continuation token for partial escape sequences. -/
theorem C4_counterexample :
    processText (mkTerminal 80 24) ("\x1b".toList ++ "A".toList) ≠
      (processText (mkTerminal 80 24) "\x1b".toList).bind
        (fun t1 => processText t1 "A".toList) := by decide

/-! ### EraseScreen frame conditions (claim C8) -/

theorem list_set_self (l : List α) (j : Nat) (h : j < l.length) :
    l.set j l[j] = l := by
  apply List.ext_getElem
  · simp
  · intro i h1 h2
    rw [List.getElem_set]
    split
    · subst ‹j = i›; rfl
    · rfl

theorem take_set_succ (x : α) : ∀ (l : List α) (j : Nat), j < l.length →
    (l.set j x).take (j + 1) = l.take j ++ [x] := by
  intro l
  induction l with
  | nil => intro j h; simp at h
  | cons a l ih =>
    intro j h
    cases j with
    | zero => simp
    | succ j =>
      simp only [List.set_cons_succ, List.take_succ_cons, List.cons_append]
      rw [ih j (by simpa using h)]

theorem pyGet_pos {l : List α} {i : Int} (h0 : 0 ≤ i) (h1 : i < (l.length : Int)) :
    pyGet l i = l.get? i.toNat := by
  unfold pyGet pyIdx
  rw [if_pos h0, if_pos h1]
  rfl

theorem pySet_pos {l : List α} {i : Int} (a : α) (h0 : 0 ≤ i) (h1 : i < (l.length : Int)) :
    pySet l i a = some (l.set i.toNat a) := by
  unfold pySet pyIdx
  rw [if_pos h0, if_pos h1]
  rfl

/-- The `while` loop of the default `J` branch blanks every row strictly
below the cursor row and leaves the cursor row index at the bottom. -/
theorem blankBelowGo_spec : ∀ (f : Nat) (L : List Str) (cur : Int),
    0 ≤ cur → cur < (L.length : Int) → L.length - cur.toNat ≤ f + 1 →
    blankBelowGo f L cur =
      some (L.take (cur.toNat + 1) ++ List.replicate (L.length - cur.toNat - 1) [],
            (L.length : Int) - 1) := by
  intro f
  induction f with
  | zero =>
    intro L cur h0 h1 hf
    have h2 : cur.toNat + 1 = L.length := by omega
    have h3 : L.length - cur.toNat - 1 = 0 := by omega
    simp only [blankBelowGo]
    rw [h2, h3]
    simp only [List.take_length, List.replicate_zero, List.append_nil,
      Option.some.injEq, Prod.mk.injEq]
    exact ⟨trivial, by omega⟩
  | succ f ih =>
    intro L cur h0 h1 hf
    simp only [blankBelowGo]
    by_cases hlt : cur < (L.length : Int) - 1
    · rw [if_pos hlt]
      rw [pySet_pos ([] : Str) (by omega) (by omega)]
      have hidx : (cur + 1).toNat < L.length := by omega
      have ihr := ih (L.set (cur + 1).toNat []) (cur + 1) (by omega)
        (by simp; omega) (by simp; omega)
      change blankBelowGo f (L.set (cur + 1).toNat []) (cur + 1) = _
      rw [ihr]
      have hlen : (L.set (cur + 1).toNat []).length = L.length := by simp
      have htn : (cur + 1).toNat = cur.toNat + 1 := by omega
      rw [hlen, htn]
      rw [take_set_succ ([] : Str) L (cur.toNat + 1) (by omega)]
      have hrep : L.length - cur.toNat - 1 = (L.length - (cur.toNat + 1) - 1) + 1 := by omega
      rw [hrep, List.append_assoc]
      simp [List.replicate_succ]
    · rw [if_neg hlt]
      have hcur : cur = (L.length : Int) - 1 := by omega
      have h2 : cur.toNat + 1 = L.length := by omega
      have h3 : L.length - cur.toNat - 1 = 0 := by omega
      rw [h2, h3]
      simp only [List.take_length, List.replicate_zero, List.append_nil,
        Option.some.injEq, Prod.mk.injEq]
      exact ⟨trivial, by omega⟩

/-- The effect of `_clear_to_eol` on the cursor row: the stored row is
truncated at the cursor column when the column lies inside it. -/
def clipLine (line : Str) (x : Int) : Str :=
  if x < (line.length : Int) then pySliceTo line x else line

theorem clearToEol_spec (t : Terminal) (h0 : 0 ≤ t.current_line)
    (h1 : t.current_line < (t.lines.length : Int)) :
    clearToEol t = some { t with
      lines := (t.lines.set t.current_line.toNat (clipLine (t.lines.getD t.current_line.toNat []) t.cursor_x)) } := by
  have hidx : t.current_line.toNat < t.lines.length := by omega
  unfold clearToEol
  rw [if_pos h1, pyGet_pos h0 h1]
  rw [List.get?_eq_getElem? , List.getElem?_eq_getElem hidx]
  simp only [Option.some_bind]
  have hgetD : t.lines.getD t.current_line.toNat [] = t.lines[t.current_line.toNat] := by
    simp [List.getD_eq_getElem?_getD, List.getElem?_eq_getElem hidx]
  unfold clipLine
  split
  · rename_i hcut
    rw [pySet_pos _ h0 h1]
    simp only [Option.map_some', Option.some.injEq]
    rw [if_pos (by rw [hgetD]; exact hcut), hgetD]
  · rename_i hcut
    rw [if_neg (by rw [hgetD]; exact hcut), hgetD]
    rw [list_set_self t.lines t.current_line.toNat hidx]

/-- C8: `EraseScreen` frame conditions.  For any grid state whose cursor row
indexes a visible line, mode "whole" (`ESC [ 2 J`) resets the visible lines
to a single blank line with the cursor at the origin while leaving the
scrollback (and geometry) unchanged; any other mode erases the current line
from the cursor column and blanks every row below it (moving the row index
to the bottom), also leaving the scrollback unchanged. -/
theorem C8_theorem (t : Terminal) (params : List Str)
    (h0 : 0 ≤ t.current_line) (h1 : t.current_line < (t.lines.length : Int)) :
    (params ≠ [] ∧ params.headD [] = ['2'] →
      handleJ t params =
        some { t with lines := [[]], current_line := 0, cursor_x := 0 }) ∧
    (¬(params ≠ [] ∧ params.headD [] = ['2']) →
      handleJ t params = some { t with
        lines := ((t.lines.set t.current_line.toNat
            (clipLine (t.lines.getD t.current_line.toNat []) t.cursor_x)).take
              (t.current_line.toNat + 1)
          ++ List.replicate (t.lines.length - t.current_line.toNat - 1) []),
        current_line := (t.lines.length : Int) - 1 }) := by
  constructor
  · intro hcond
    unfold handleJ
    rw [if_pos hcond]
  · intro hcond
    unfold handleJ
    rw [if_neg hcond]
    rw [clearToEol_spec t h0 h1]
    simp only [Option.some_bind]
    unfold blankBelow
    rw [blankBelowGo_spec _ _ _ (by simpa using h0) (by simpa using h1)
      (by simp; omega)]
    simp only [Option.map_some', Option.some.injEq, List.length_set]

theorem C8_witness :
    handleJ ⟨80, 24, ["abcd".toList, "efgh".toList, "ijkl".toList], ["s".toList],
        1, 2, 10000⟩ [] =
      some ⟨80, 24, ["abcd".toList, "ef".toList, []], ["s".toList], 2, 2, 10000⟩ := by
  have h := (C8_theorem ⟨80, 24, ["abcd".toList, "efgh".toList, "ijkl".toList],
    ["s".toList], 1, 2, 10000⟩ [] (by decide) (by decide)).2 (by decide)
  rw [h]
  decide

/-! ### Scrollback under repeated line feeds (claim C6) -/

/-- Iterated line feeds. -/
def nlIter : Nat → Terminal → Terminal
  | 0, t => t
  | n + 1, t => newlineStep (nlIter n t)

theorem nlIter_shift (n : Nat) (t : Terminal) :
    nlIter n (newlineStep t) = nlIter (n + 1) t := by
  induction n generalizing t with
  | zero => rfl
  | succ n ih =>
    simp only [nlIter] at ih ⊢
    rw [ih]

theorem nlIter_add (a b : Nat) (t : Terminal) :
    nlIter (a + b) t = nlIter b (nlIter a t) := by
  induction b with
  | zero => rfl
  | succ b ih => simp only [nlIter, ← ih]; rfl

theorem processText_replicate_nl (n : Nat) : ∀ (t : Terminal),
    processText t (List.replicate n '\n') = some (nlIter n t) := by
  induction n with
  | zero => intro t; rfl
  | succ n ih =>
    intro t
    rw [List.replicate_succ, processText_cons]
    have hstep : pstep t '\n' (List.replicate n '\n') =
        some (newlineStep t, List.replicate n '\n') := by
      simp [pstep]
    rw [hstep]
    change processText (newlineStep t) (List.replicate n '\n') = _
    rw [ih (newlineStep t), nlIter_shift]

theorem nlIter_phase1 (w h : Nat) : ∀ j, j + 1 ≤ h →
    nlIter j (mkTerminal w h) =
      ⟨w, h, List.replicate (j + 1) [], [], (j : Int), 0, 10000⟩ := by
  intro j
  induction j with
  | zero =>
    intro _
    simp [nlIter, mkTerminal, List.replicate]
  | succ j ih =>
    intro hj
    simp only [nlIter]
    rw [ih (by omega)]
    unfold newlineStep
    dsimp only
    rw [if_neg (by omega)]
    simp only [List.length_replicate]
    rw [if_pos (by omega)]
    rw [← List.replicate_succ' (n := j + 1)]
    simp only [Terminal.mk.injEq, and_true, true_and]
    push_cast
    omega

theorem newlineStep_blankScroll (w h m k cap : Nat) (c : Int)
    (hc : (h : Int) - 1 ≤ c) (hk : k + 1 ≤ cap) :
    newlineStep ⟨w, h, List.replicate (m + 1) [], List.replicate k [], c, 0, cap⟩ =
      ⟨w, h, List.replicate m [], List.replicate (k + 1) [], c, 0, cap⟩ := by
  unfold newlineStep
  dsimp only
  rw [if_pos (by omega)]
  rw [List.replicate_succ]
  dsimp only
  unfold trimScrollback
  rw [← List.replicate_succ' (n := k)]
  simp only [List.length_replicate]
  rw [if_neg (by omega)]

theorem newlineStep_emptyFix (w h k cap : Nat) (c : Int) (hc : (h : Int) - 1 ≤ c) :
    newlineStep ⟨w, h, [], List.replicate k [], c, 0, cap⟩ =
      ⟨w, h, [], List.replicate k [], c, 0, cap⟩ := by
  unfold newlineStep
  dsimp only
  rw [if_pos (by omega)]

theorem nlIter_phase2 (w h cap : Nat) (c : Int) (hc : (h : Int) - 1 ≤ c) :
    ∀ j m k, j ≤ m → k + j ≤ cap →
    nlIter j ⟨w, h, List.replicate m [], List.replicate k [], c, 0, cap⟩ =
      ⟨w, h, List.replicate (m - j) [], List.replicate (k + j) [], c, 0, cap⟩ := by
  intro j
  induction j with
  | zero => intro m k _ _; rfl
  | succ j ih =>
    intro m k hj hk
    simp only [nlIter]
    rw [ih m k (by omega) (by omega)]
    have hm : m - j = (m - j - 1) + 1 := by omega
    rw [hm, newlineStep_blankScroll w h (m - j - 1) (k + j) cap c hc (by omega)]
    have e1 : m - j - 1 = m - (j + 1) := by omega
    have e2 : k + j + 1 = k + (j + 1) := by omega
    rw [e1, e2]

theorem nlIter_fix (w h k cap : Nat) (c : Int) (hc : (h : Int) - 1 ≤ c) (j : Nat) :
    nlIter j ⟨w, h, [], List.replicate k [], c, 0, cap⟩ =
      ⟨w, h, [], List.replicate k [], c, 0, cap⟩ := by
  induction j with
  | zero => rfl
  | succ j ih =>
    simp only [nlIter]
    rw [ih, newlineStep_emptyFix w h k cap c hc]

/-- C6 (amended): from a fresh grid, `height + K` line feeds leave exactly
`min height (K+1)` (blank) lines in the scrollback — not `cap` entries: only
the visible lines can ever be evicted, the newline handler evicts nothing
once the line list is empty, and so the `10000`-line cap is never reached
from a fresh grid by line feeds alone. -/
theorem C6_theorem (w h K : Nat) (h1 : 1 ≤ h) (h2 : h ≤ 10000) :
    processText (mkTerminal w h) (List.replicate (h + K) '\n') =
      some ⟨w, h, List.replicate (h - min h (K + 1)) [],
            List.replicate (min h (K + 1)) [], ((h : Int)) - 1, 0, 10000⟩ := by
  rw [processText_replicate_nl]
  have hsplit : h + K = (h - 1) + (K + 1) := by omega
  rw [hsplit, nlIter_add]
  rw [nlIter_phase1 w h (h - 1) (by omega)]
  have hrep : h - 1 + 1 = h := by omega
  rw [hrep]
  have hc : (h : Int) - 1 ≤ ((h - 1 : Nat) : Int) := by omega
  rw [show (⟨w, h, List.replicate h [], [], ((h - 1 : Nat) : Int), 0, 10000⟩ : Terminal) =
    ⟨w, h, List.replicate h [], List.replicate 0 [], ((h - 1 : Nat) : Int), 0, 10000⟩ from rfl]
  by_cases hcase : K + 1 ≤ h
  · rw [nlIter_phase2 w h 10000 _ hc (K + 1) h 0 hcase (by omega)]
    have e1 : min h (K + 1) = K + 1 := by omega
    have e2 : ((h - 1 : Nat) : Int) = (h : Int) - 1 := by omega
    rw [e1, e2]
    simp
  · have e1 : min h (K + 1) = h := by omega
    have e2 : ((h - 1 : Nat) : Int) = (h : Int) - 1 := by omega
    rw [e1, Nat.sub_self]
    rw [show K + 1 = h + (K + 1 - h) by omega, nlIter_add]
    rw [nlIter_phase2 w h 10000 _ hc h h 0 (le_refl h) (by omega)]
    rw [Nat.sub_self, Nat.zero_add]
    simp only [List.replicate_zero]
    rw [nlIter_fix w h h 10000 _ hc, e2]

theorem C6_witness :
    processText (mkTerminal 80 2) (List.replicate (2 + 3) '\n') =
      some ⟨80, 2, List.replicate (2 - min 2 (3 + 1)) [],
            List.replicate (min 2 (3 + 1)) [], (((2 : Nat) : Int)) - 1, 0, 10000⟩ :=
  C6_theorem 80 2 3 (by decide) (by decide)

/-- C6 counterexample: with height 1 and `K = 10001 > cap = 10000`, the
`height + K` line feeds leave exactly one scrollback entry, not `cap`
entries as claimed. -/
theorem C6_counterexample :
    processText (mkTerminal 80 1) (List.replicate (1 + 10001) '\n') =
      some ⟨80, 1, [], [[]], 0, 0, 10000⟩ ∧ ([[]] : List Str).length ≠ 10000 := by
  constructor
  · have h3 := C6_theorem 80 1 10001 (by decide) (by decide)
    rw [h3]
    decide
  · decide

/-! ### Cast-file event parsing (claim C9) -/

/-- A decoded JSON field of an asciinema event line. -/
inductive JVal
  | num (n : Int)
  | str (s : Str)
deriving DecidableEq, Repr

/-- The event loop of `parse_cast_file` (`parser.py` 27-44), over the
sequence of non-blank event lines after `json.loads`: `none` models a line
whose JSON failed to decode (`json.JSONDecodeError` is caught and the line
skipped); `some ev` a decoded JSON array.  An event with fewer than 3 fields
is dropped by the `len(event) >= 3` guard; nothing is ever raised or
reported. -/
def parseCastEvents : List (Option (List JVal)) → List (JVal × JVal × JVal)
  | [] => []
  | none :: rest => parseCastEvents rest
  | some ev :: rest =>
    if h : ev.length ≥ 3 then
      (ev.get ⟨0, by omega⟩, ev.get ⟨1, by omega⟩, ev.get ⟨2, by omega⟩) ::
        parseCastEvents rest
    else parseCastEvents rest

theorem parseCastEvents_append (l1 l2 : List (Option (List JVal))) :
    parseCastEvents (l1 ++ l2) = parseCastEvents l1 ++ parseCastEvents l2 := by
  induction l1 with
  | nil => rfl
  | cons x l1 ih =>
    cases x with
    | none => simpa [parseCastEvents] using ih
    | some ev =>
      by_cases h : ev.length ≥ 3
      · simp [parseCastEvents, h, ih]
      · simp [parseCastEvents, h, ih]

/-- C9 (amended): an event line missing required fields (fewer than 3 JSON
array elements), like a line that is not valid JSON, is silently skipped:
removing it from the input leaves the parsed event list unchanged, and
parsing is total — no failure is surfaced and no event index is reported. -/
theorem C9_theorem (l1 l2 : List (Option (List JVal))) (ev : List JVal)
    (hshort : ev.length < 3) :
    parseCastEvents (l1 ++ some ev :: l2) = parseCastEvents (l1 ++ l2) ∧
    parseCastEvents (l1 ++ none :: l2) = parseCastEvents (l1 ++ l2) := by
  have hge : ¬ ev.length ≥ 3 := by omega
  have hskip : parseCastEvents (some ev :: l2) = parseCastEvents l2 := by
    simp [parseCastEvents, hge]
  constructor
  · rw [parseCastEvents_append, hskip, parseCastEvents_append]
  · rw [parseCastEvents_append, parseCastEvents_append]
    rfl

theorem C9_witness :
    parseCastEvents ([] ++ some [JVal.num 0, JVal.str "o".toList] ::
        [some [JVal.num 1, JVal.str "o".toList, JVal.str "hi".toList]]) =
      parseCastEvents ([] ++ [some [JVal.num 1, JVal.str "o".toList, JVal.str "hi".toList]]) :=
  (C9_theorem [] [some [JVal.num 1, JVal.str "o".toList, JVal.str "hi".toList]]
    [JVal.num 0, JVal.str "o".toList] (by decide)).1

/-- C9 counterexample: an event with only 2 fields does not fail fast with a
descriptive error — parsing returns normally, silently dropping the event
and keeping the later ones. -/
theorem C9_counterexample :
    parseCastEvents [some [JVal.num 0, JVal.str "o".toList],
                     some [JVal.num 1, JVal.str "o".toList, JVal.str "hi".toList]] =
      [(JVal.num 1, JVal.str "o".toList, JVal.str "hi".toList)] := by decide

/-! ### Hard-coded record rewriting and fabrication (claim C10) -/

/-- Python's substring test `needle in hay`. -/
def containsSub (needle : Str) : Str → Bool
  | [] => needle.isPrefixOf []
  | c :: cs => needle.isPrefixOf (c :: cs) || containsSub needle cs

/-- The two literal command rewrites of `process_cast_file`
(`asciinema2md.py` 148-153). -/
def fixCommand (cmd : Str) : Str :=
  if cmd = "ldapquery.log ./ldapRootDSE.log".toList then
    "cp ldapquery.log ./ldapRootDSE.log".toList
  else if cmd = "dir ../hercules".toList then
    "mkdir ../hercules".toList
  else cmd

/-- The rewrite-and-deduplicate loop (`asciinema2md.py` 143-158);
`seen_commands` is a set used only for membership, so a list is a faithful
model. -/
def fixLoop : List (Str × Str) → List Str → List (Str × Str)
  | [], _ => []
  | (cmd, out) :: rest, seen =>
    let cmd := fixCommand cmd
    if cmd ∈ seen then fixLoop rest seen
    else (cmd, out) :: fixLoop rest (cmd :: seen)

/-- The autocomplete pattern looked up in raw events (`asciinema2md.py` 166). -/
def nmapTrigger : Str := "map -p 445 --script \"smb*\"".toList

/-- The fabricated record appended at `asciinema2md.py` 168-169; neither
string is taken from the event stream. -/
def nmapRecord : Str × Str :=
  ("nmap -p 445 --script \"smb*\" $TARGETIP -oA SMBDetailedScan".toList,
   ("Starting Nmap 7.95 ( https://nmap.org ) at 2025-12-30 17:56 CST\nError #486: Your port specifications are illegal.  Example of proper form: \"-100,200-1024,T:3000-4000,U:60000-\"\nQUITTING!").toList)

def hasFirstNmap (cmds : List (Str × Str)) : Bool :=
  cmds.any (fun p => containsSub "nmap -p 445".toList p.1)

/-- The post-processing stage of `process_cast_file`
(`asciinema2md.py` 142-172): rewrite hard-coded commands, deduplicate, then
append the fabricated nmap record when no extracted command contains
"nmap -p 445" and some output event contains the trigger substring. -/
def postProcess (cmds : List (Str × Str)) (events : List Event) : List (Str × Str) :=
  if hasFirstNmap (fixLoop cmds []) then fixLoop cmds []
  else if events.any (fun e => (e.2.1 == "o".toList) && containsSub nmapTrigger e.2.2) then
    fixLoop cmds [] ++ [nmapRecord]
  else fixLoop cmds []

/-- C10 (amended): the post-processing stage rewrites extracted records from
hard-coded literals ("ldapquery.log ./ldapRootDSE.log" becomes
"cp ldapquery.log ./ldapRootDSE.log" and "dir ../hercules" becomes
"mkdir ../hercules"), and appends the fixed fabricated (nmap command, nmap
error output) record exactly when no already-extracted command contains
"nmap -p 445" and some output event contains the trigger substring
'map -p 445 --script "smb*"'. -/
theorem C10_theorem (out1 out2 : Str) (cmds : List (Str × Str)) (events : List Event)
    (hno : hasFirstNmap (fixLoop cmds []) = false)
    (htrig : events.any
      (fun e => (e.2.1 == "o".toList) && containsSub nmapTrigger e.2.2) = true) :
    postProcess [("ldapquery.log ./ldapRootDSE.log".toList, out1)] [] =
      [("cp ldapquery.log ./ldapRootDSE.log".toList, out1)] ∧
    postProcess [("dir ../hercules".toList, out2)] [] =
      [("mkdir ../hercules".toList, out2)] ∧
    postProcess cmds events = fixLoop cmds [] ++ [nmapRecord] := by
  refine ⟨rfl, rfl, ?_⟩
  unfold postProcess
  rw [hno, htrig]
  rfl

theorem C10_witness :
    postProcess [("ldapquery.log ./ldapRootDSE.log".toList, "x".toList)] [] =
      [("cp ldapquery.log ./ldapRootDSE.log".toList, "x".toList)] ∧
    postProcess [("dir ../hercules".toList, "y".toList)] [] =
      [("mkdir ../hercules".toList, "y".toList)] ∧
    postProcess [("ls -la".toList, [])] [(5, "o".toList, nmapTrigger)] =
      fixLoop [("ls -la".toList, [])] [] ++ [nmapRecord] :=
  C10_theorem "x".toList "y".toList [("ls -la".toList, [])]
    [(5, "o".toList, nmapTrigger)] (by decide) (by decide)

/-- C10 counterexample: an output event contains the trigger substring, yet
no fabricated record is appended, because a command containing "nmap -p 445"
was already extracted — refuting the unconditional "whenever" of the claim. -/
theorem C10_counterexample :
    postProcess [("nmap -p 445 -oA scan".toList, [])] [(0, "o".toList, nmapTrigger)] =
      [("nmap -p 445 -oA scan".toList, [])] ∧
    containsSub nmapTrigger nmapTrigger = true := by decide

/-! ### `ansi.strip_ansi` and the DirectExtractor regexes (claim C1) -/

/-- First substitution pass of `strip_ansi` (`ansi.py` 23-24): remove every
match of `ESC [ [0-9;]* letter`, `ESC ] ... BEL`, or `ESC [=<>]`; on a
failed match the scanner emits the character and advances one position, as
`re.sub` does.  Each step consumes at least one character, so fuel equal to
the length suffices. -/
def stripAnsi1Go : Nat → Str → Str
  | _, [] => []
  | 0, s => s
  | f + 1, c :: cs =>
    if c = '\x1b' then
      match cs with
      | '[' :: r =>
        match r.dropWhile (fun x => x.isDigit || x = ';') with
        | x :: r2 =>
          if x.isAlpha then stripAnsi1Go f r2
          else c :: stripAnsi1Go f cs
        | [] => c :: stripAnsi1Go f cs
      | ']' :: r =>
        if r.contains '\x07' then stripAnsi1Go f (oscSkip r)
        else c :: stripAnsi1Go f cs
      | x :: r =>
        if x = '=' || x = '<' || x = '>' then stripAnsi1Go f r
        else c :: stripAnsi1Go f cs
      | [] => [c]
    else c :: stripAnsi1Go f cs

def stripAnsi1 (s : Str) : Str := stripAnsi1Go s.length s

/-- Second substitution pass of `strip_ansi` (`ansi.py` 28): drop the
control characters `[\x00-\x08\x0b\x0c\x0e-\x1f\x7f]`, keeping tab,
newline and carriage return. -/
def stripCtl (s : Str) : Str :=
  s.filter (fun c =>
    if c.toNat ≤ 8 ∨ c.toNat = 11 ∨ c.toNat = 12 ∨
       (14 ≤ c.toNat ∧ c.toNat ≤ 31) ∨ c.toNat = 127 then false else true)

def stripAnsi (s : Str) : Str := stripCtl (stripAnsi1 s)

/-- The gray autocomplete SGR sequence looked for by DirectExtractor. -/
def grayLit : Str := "\x1b[38;2;153;153;153m".toList

/-- `re.search(r'\u001b\[38;2;153;153;153m([^\u001b]+)\u001b', text)`
(`direct_extractor.py` 31): leftmost occurrence of the gray literal followed
by a nonempty ESC-free run terminated by another ESC; returns the run. -/
def findAutocomplete : Str → Option Str
  | [] => none
  | c :: cs =>
    if grayLit.isPrefixOf (c :: cs) then
      let after := (c :: cs).drop grayLit.length
      let run := after.takeWhile (fun x => x ≠ '\x1b')
      let rest := after.dropWhile (fun x => x ≠ '\x1b')
      if run ≠ [] ∧ rest ≠ [] then some run else findAutocomplete cs
    else findAutocomplete cs

/-- Tail of the kali-prompt pattern: `└─[#\$]\s*` (the trailing `\s*` always
matches). -/
def promptTail : Str → Bool
  | '└' :: '─' :: x :: _ => x = '#' || x = '$'
  | _ => false

/-- Match of `┌──\([^\)]+\)\-\[[^\]]+\]\r?\n└─[#\$]\s*`
(`direct_extractor.py` 12) anchored at the start of `s`.  The two
one-or-more classes cannot contain their closing bracket, so the greedy
matches are the runs up to the first `)` / `]` and no backtracking can
succeed where this fails. -/
def promptMatchAt (s : Str) : Bool :=
  match s with
  | '┌' :: '─' :: '─' :: '(' :: r1 =>
    let inside := r1.takeWhile (fun x => x ≠ ')')
    (match r1.dropWhile (fun x => x ≠ ')') with
     | ')' :: '-' :: '[' :: r2 =>
       let inside2 := r2.takeWhile (fun x => x ≠ ']')
       (match r2.dropWhile (fun x => x ≠ ']') with
        | ']' :: '\r' :: '\n' :: r4 => inside ≠ [] && inside2 ≠ [] && promptTail r4
        | ']' :: '\n' :: r4 => inside ≠ [] && inside2 ≠ [] && promptTail r4
        | _ => false)
     | _ => false)
  | _ => false

/-- `prompt_pattern.search`: the anchored pattern at any position. -/
def promptSearch : Str → Bool
  | [] => false
  | c :: cs => promptMatchAt (c :: cs) || promptSearch cs

def lowerS (s : Str) : Str := s.map Char.toLower

def isalphaS (s : Str) : Bool := !s.isEmpty && s.all Char.isAlpha

def headAlpha : Str → Bool
  | c :: _ => c.isAlpha
  | [] => false

/-- `^\d+,\d+.*word` (`re.match`, so anchored at the start). -/
def rxNumCommaNumThen (word : Str) (s : Str) : Bool :=
  let d1 := s.takeWhile Char.isDigit
  let r1 := s.dropWhile Char.isDigit
  if d1 = [] then false
  else
    match r1 with
    | ',' :: r2 =>
      let d2 := r2.takeWhile Char.isDigit
      let r3 := r2.dropWhile Char.isDigit
      if d2 = [] then false else containsSub word r3
    | _ => false

/-- `\d+L,\s+\d+B` anchored here; returns the rest after `B`. -/
def matchDigitsLB (s : Str) : Option Str :=
  let d1 := s.takeWhile Char.isDigit
  let r1 := s.dropWhile Char.isDigit
  if d1 = [] then none
  else
    match r1 with
    | 'L' :: ',' :: r2 =>
      let w := r2.takeWhile pyWs
      let r3 := r2.dropWhile pyWs
      if w = [] then none
      else
        let d2 := r3.takeWhile Char.isDigit
        let r4 := r3.dropWhile Char.isDigit
        if d2 = [] then none
        else match r4 with
          | 'B' :: r5 => some r5
          | _ => none
    | _ => none

/-- `\s+\d+L,\s+\d+B` anchored here. -/
def wsThenLB (s : Str) : Bool :=
  let w := s.takeWhile pyWs
  let r := s.dropWhile pyWs
  w ≠ [] && (matchDigitsLB r).isSome

def anySuffixAfterQuote : Str → Bool
  | [] => false
  | c :: cs => (c = '"' && wsThenLB cs) || anySuffixAfterQuote cs

/-- `^".*"\s+\d+L,\s+\d+B` (`re.match`): a leading quote, then (by the
greedy-with-backtracking `.*"`) some later quote followed by `\s+\d+L,\s+\d+B`. -/
def quoteThenLB : Str → Bool
  | '"' :: r => anySuffixAfterQuote r
  | _ => false

/-- `^\s*\d+L,\s+\d+B\s+written`. -/
def wsLBwritten (s : Str) : Bool :=
  match matchDigitsLB (s.dropWhile pyWs) with
  | none => false
  | some r =>
    let w := r.takeWhile pyWs
    let r2 := r.dropWhile pyWs
    w ≠ [] && "written".toList.isPrefixOf r2

/-- `^\s*\d+L,\s+\d+B\s*$`. -/
def wsLBend (s : Str) : Bool :=
  match matchDigitsLB (s.dropWhile pyWs) with
  | none => false
  | some r => r.all pyWs

/-- `^\s*\d+\s*$`. -/
def wsNumWs (s : Str) : Bool :=
  let r := s.dropWhile pyWs
  let d := r.takeWhile Char.isDigit
  let r2 := r.dropWhile Char.isDigit
  d ≠ [] && r2.all pyWs

/-- `\[.*\?25` somewhere in `s` (a `[` with `?25` after it). -/
def brThen25 : Str → Bool
  | [] => false
  | c :: cs => (c = '[' && containsSub "?25".toList cs) || brThen25 cs

/-- `^\s*\d+.*\[.*\?25`. -/
def rxWsNumBr25 (s : Str) : Bool :=
  let r := s.dropWhile pyWs
  let d := r.takeWhile Char.isDigit
  let r2 := r.dropWhile Char.isDigit
  d ≠ [] && brThen25 r2

/-- `^\[.*\]$` on a line without newlines. -/
def bracketWhole (s : Str) : Bool :=
  s.head? = some '[' && s.getLast? = some ']' && s.length ≥ 2

/-- `^(vim|nmap|apt)\s+[^\s]+` (`re.match`). -/
def cmdWordArg (w s : Str) : Bool :=
  w.isPrefixOf s &&
    (let r := s.drop w.length
     let ws := r.takeWhile pyWs
     let r2 := r.dropWhile pyWs
     ws ≠ [] && r2 ≠ [])

/-- `^"/.*"$`. -/
def quoteSlashWhole (s : Str) : Bool :=
  "\"/".toList.isPrefixOf s && s.getLast? = some '"' && s.length ≥ 3

/-- The character class of the complete-command regex
(`direct_extractor.py` 54): `[a-zA-Z0-9_/\-\.\s\$"\'=:;\[\]{}()]`. -/
def cmdClassChar (c : Char) : Bool :=
  c.isAlpha || c.isDigit || c = '_' || c = '/' || c = '-' || c = '.' || pyWs c ||
  c = '$' || c = '"' || c.toNat = 39 || c = '=' || c = ':' || c = ';' ||
  c = '[' || c = ']' || c = '\x7b' || c = '\x7d' || c = '(' || c = ')'

/-- `re.match(r'^[class]+$', s)`: nonempty and all characters in the class. -/
def cmdClassMatch (s : Str) : Bool := s ≠ [] && s.all cmdClassChar

/-! ### `DirectExtractor._clean_output` (`direct_extractor.py` 214-457) -/

def shortOkWords : List Str := ["ok", "no", "yes", "id", "ip"].map String.toList

/-- First filtering pass (`direct_extractor.py` 222-286); `prev` models
`prev_line` with `[]` for `None` (it is never set to an empty string). -/
def cleanPass1 : List Str → Str → List Str
  | [], _ => []
  | line :: rest, prev =>
    let s := pstrip line
    if s = "~".toList then cleanPass1 rest prev
    else if containsSub "-- INSERT --".toList line ||
            containsSub "-- REPLACE --".toList line then cleanPass1 rest prev
    else if rxNumCommaNumThen "All".toList line then cleanPass1 rest prev
    else if s = "▽".toList || s = "zz".toList then cleanPass1 rest prev
    else if quoteThenLB line then cleanPass1 rest prev
    else if rxNumCommaNumThen "written".toList line then cleanPass1 rest prev
    else if s.length ≤ 2 && !(shortOkWords.contains (lowerS s)) then cleanPass1 rest prev
    else if s.length = 1 && isalphaS s then cleanPass1 rest prev
    else if prev ≠ [] && s.length > prev.length && containsSub prev s then
      cleanPass1 rest s
    else if containsSub "Completing".toList line &&
            containsSub "executable file".toList line then cleanPass1 rest prev
    else if "[".toList.isPrefixOf s &&
            (containsSub "?25".toList line || containsSub "?1".toList line ||
             containsSub "?2004".toList line) then cleanPass1 rest prev
    else if bracketWhole s then cleanPass1 rest prev
    else if "E486".toList.isPrefixOf s || "E387".toList.isPrefixOf s then
      cleanPass1 rest prev
    else if wsNumWs s then cleanPass1 rest prev
    else if s ≠ [] && s.all (fun c => !c.isAlphanum) then cleanPass1 rest prev
    else if s.length < 4 && isalphaS s && prev ≠ [] && containsSub s prev then
      cleanPass1 rest s
    else line :: cleanPass1 rest s

/-- Leading/trailing blank-line trim (`direct_extractor.py` 289-292). -/
def trimBlankEnds (l : List Str) : List Str :=
  let l1 := l.dropWhile (fun s => pstrip s = [])
  (l1.reverse.dropWhile (fun s => pstrip s = [])).reverse

/-- The `for j in range(i+1, min(i+10, len))` prefix-of-a-later-line scan
(`direct_extractor.py` 317-321); fuel 9 covers the range. -/
def lookaheadProg (cleaned : List Str) (s : Str) (stop : Nat) : Nat → Nat → Bool
  | 0, _ => false
  | f + 1, j =>
    if j < stop then
      let later := pstrip (cleaned.getD j [])
      if s.isPrefixOf later && later.length > s.length + 2 then true
      else lookaheadProg cleaned s stop f (j + 1)
    else false

/-- The consecutive short-alpha-line counter (`direct_extractor.py` 326-331). -/
def shortRunGo (cleaned : List Str) : Nat → Nat → Nat
  | 0, _ => 0
  | f + 1, j =>
    if j < cleaned.length then
      let sj := pstrip (cleaned.getD j [])
      if sj.length ≤ 2 && isalphaS sj then 1 + shortRunGo cleaned f (j + 1) else 0
    else 0

/-- Second filtering pass (`direct_extractor.py` 296-420), indexed loop with
skips; `acc` holds `final_cleaned` in reverse (so `pop()` is `tail`).  The
index advances by at least one per step, so fuel `length + 1` suffices. -/
def cleanPass2Go (cleaned : List Str) : Nat → Nat → List Str → List Str
  | 0, _, acc => acc.reverse
  | f + 1, i, acc =>
    if i < cleaned.length then
      let line := cleaned.getD i []
      let s := pstrip line
      let prog1 := i > 0 &&
        (let prev := pstrip (cleaned.getD (i - 1) [])
         prev ≠ [] && prev.isPrefixOf s && s.length > prev.length)
      let prog2 := i < cleaned.length - 1 &&
        (let nxt := pstrip (cleaned.getD (i + 1) [])
         nxt ≠ [] && s.isPrefixOf nxt && nxt.length > s.length)
      let isProg0 := prog1 || prog2
      let isProg := isProg0 ||
        (!isProg0 && s.length < 15 &&
          lookaheadProg cleaned s (min (i + 10) cleaned.length) 9 (i + 1))
      let run := shortRunGo cleaned cleaned.length i
      if s.length ≤ 2 && isalphaS s && run > 2 then
        cleanPass2Go cleaned f (i + run) acc
      else if "[".toList.isPrefixOf s &&
              (containsSub "?25".toList s || containsSub "?1".toList s ||
               containsSub "?2004".toList s) then cleanPass2Go cleaned f (i + 1) acc
      else if rxWsNumBr25 s then cleanPass2Go cleaned f (i + 1) acc
      else if quoteThenLB s then cleanPass2Go cleaned f (i + 1) acc
      else if wsLBwritten s then cleanPass2Go cleaned f (i + 1) acc
      else if wsLBend s then cleanPass2Go cleaned f (i + 1) acc
      else if "Completing".toList.isPrefixOf s then cleanPass2Go cleaned f (i + 1) acc
      else if containsSub "▽".toList s || containsSub "Pzz".toList s ||
              containsSub "[>c".toList s then cleanPass2Go cleaned f (i + 1) acc
      else if s.length < 8 &&
              (s.contains '/' || "osts".toList.isSuffixOf s || "ost".toList.isSuffixOf s) &&
              (s.contains '/' ||
               (["osts", "ost", "host", "hosts"].map String.toList).contains s) then
        cleanPass2Go cleaned f (i + 1) acc
      else if s = "/etc/host".toList then cleanPass2Go cleaned f (i + 1) acc
      else if s.length ≤ 4 &&
              (["vim", "env", "mkd", "cp", "cd", "ls"].map String.toList).contains s then
        cleanPass2Go cleaned f (i + 1) acc
      else if s.length ≤ 5 &&
              ("cp ".toList.isPrefixOf s || "mv ".toList.isPrefixOf s ||
               "rm ".toList.isPrefixOf s || "cd ".toList.isPrefixOf s ||
               "ls ".toList.isPrefixOf s) then cleanPass2Go cleaned f (i + 1) acc
      else if (["vim /etc/hosts", "vim /etc/resolv.conf", "vim .env",
                "vim users.txt"].map String.toList).contains s then
        cleanPass2Go cleaned f (i + 1) acc
      else if ("vim /".toList.isPrefixOf s || "nmap ".toList.isPrefixOf s ||
               "apt ".toList.isPrefixOf s) && s.length < 50 &&
              (cmdWordArg "vim".toList s || cmdWordArg "nmap".toList s ||
               cmdWordArg "apt".toList s) then cleanPass2Go cleaned f (i + 1) acc
      else if quoteSlashWhole s then cleanPass2Go cleaned f (i + 1) acc
      else if s.length ≤ 3 && "#".toList.isPrefixOf s then
        cleanPass2Go cleaned f (i + 1) acc
      else if isProg then cleanPass2Go cleaned f (i + 1) acc
      else if i > 0 &&
              (let prev := pstrip (cleaned.getD (i - 1) [])
               prev ≠ [] && s ≠ [] &&
               (prev.isPrefixOf s || s.isPrefixOf prev) &&
               ((prev.length : Int) - s.length).natAbs ≤ 2 &&
               s.length < prev.length) then
        let acc := if acc.head? = some (cleaned.getD (i - 1) []) then acc.tail else acc
        cleanPass2Go cleaned f (i + 1) acc
      else cleanPass2Go cleaned f (i + 1) (line :: acc)
    else acc.reverse

/-- `re.sub(r'\[\?1h\s*', '', result)` (`direct_extractor.py` 425). -/
def subEsc1h : Nat → Str → Str
  | _, [] => []
  | 0, s => s
  | f + 1, c :: cs =>
    if "[?1h".toList.isPrefixOf (c :: cs) then
      subEsc1h f (((c :: cs).drop 4).dropWhile pyWs)
    else c :: subEsc1h f cs

/-- `re.sub(r'\[\?2004[hl]\s*', '', result)` (`direct_extractor.py` 426). -/
def subEsc2004 : Nat → Str → Str
  | _, [] => []
  | 0, s => s
  | f + 1, c :: cs =>
    if "[?2004".toList.isPrefixOf (c :: cs) &&
       ((c :: cs).getD 6 ' ' = 'h' || (c :: cs).getD 6 ' ' = 'l') then
      subEsc2004 f (((c :: cs).drop 7).dropWhile pyWs)
    else c :: subEsc2004 f cs

def promptCorner : Str := "┌──(".toList

/-- Duplicate-prompt and literal vim-command drop (`direct_extractor.py`
428-440); `prev` is the previous original line. -/
def dropDupVim : List Str → Option Str → List Str
  | [], _ => []
  | line :: rest, prev =>
    let dupPrompt := containsSub promptCorner line &&
      (match prev with
       | some p => containsSub promptCorner p
       | none => false)
    let s := pstrip line
    let vimCmd := s = "vim /etc/hosts".toList || s = "vim /etc/resolv.conf".toList
    if dupPrompt || vimCmd then dropDupVim rest (some line)
    else line :: dropDupVim rest (some line)

/-- Blank-line collapse (`direct_extractor.py` 446-455). -/
def collapseBlanks : List Str → Bool → List Str
  | [], _ => []
  | line :: rest, prevEmpty =>
    if pstrip line = [] then
      if prevEmpty then collapseBlanks rest true
      else line :: collapseBlanks rest true
    else line :: collapseBlanks rest false

/-- `DirectExtractor._clean_output`. -/
def cleanOutput (text : Str) : Str :=
  let ls := splitOnChar '\n' text
  let cleaned := trimBlankEnds (cleanPass1 ls [])
  let final1 := cleanPass2Go cleaned (cleaned.length + 1) 0 []
  let result := subEsc2004 (subEsc1h (joinNL final1).length (joinNL final1)).length
    (subEsc1h (joinNL final1).length (joinNL final1))
  let result := joinNL (dropDupVim (splitOnChar '\n' result) none)
  let ls3 := (splitOnChar '\n' result).filter
    (fun l => !(pstrip l = "~".toList || "~ ".toList.isPrefixOf (pstrip l)))
  joinNL (collapseBlanks ls3 false)

/-! ### `DirectExtractor.process_events` and helpers (claim C1) -/

/-- An accumulated `(command, output, timestamp)` triple. -/
abbrev Cmd3 := Str × Str × Int

/-- Inner collection loop of `_find_output_for_command`
(`direct_extractor.py` 122-144): scan forward until the next prompt or next
complete-command shape, collecting stripped-ANSI text. -/
def findOutputGo (events : List Event) (stop : Nat) : Nat → Nat → List Str
  | 0, _ => []
  | f + 1, i =>
    if i < stop then
      match events.getD i (0, [], []) with
      | (_, et, tx) =>
        if et ≠ "o".toList then findOutputGo events stop f (i + 1)
        else if promptSearch tx then []
        else
          let clean := stripAnsi tx
          let cs := pstrip clean
          if cs.length > 5 && cs.length < 500 &&
             !(clean.contains '\x1b' || clean.contains '\r' || clean.contains '\n') &&
             cs.contains ' ' && cs.length > 0 && headAlpha cs then []
          else
            let rest := findOutputGo events stop f (i + 1)
            if pstrip clean ≠ [] && !("┌──".toList.isPrefixOf clean) then
              clean :: rest
            else rest
    else []

/-- `DirectExtractor._find_output_for_command` (`direct_extractor.py`
117-146). -/
def findOutputForCommand (events : List Event) (cmdIdx : Nat) : Str :=
  cleanOutput (joinNL (findOutputGo events (min (cmdIdx + 100) events.length)
    (events.length + 1) (cmdIdx + 1)))

/-- Character scan of `_find_command_prefix` (`direct_extractor.py`
198-209): printable characters are appended (the inner backspace branch is
dead code in the source, kept for fidelity), a CR/LF returns the stripped
accumulator early when it is nonempty and clears it otherwise. -/
def prefixChars : Str → List Char → Sum Str (List Char)
  | [], acc => Sum.inr acc
  | c :: cs, acc =>
    if 32 ≤ c.toNat ∧ c.toNat ≤ 126 then
      if c = '\x08' then
        prefixChars cs (if acc ≠ [] then acc.dropLast else acc)
      else prefixChars cs (acc ++ [c])
    else if c = '\r' || c = '\n' then
      if acc ≠ [] then Sum.inl (pstrip acc)
      else prefixChars cs []
    else prefixChars cs acc

/-- Event scan of `_find_command_prefix` (`direct_extractor.py` 180-212),
over `events[max(0, idx-20) : idx]`; an early return inside the character
loop may yield an empty string (falsy to the caller), the final return maps
an empty result to `None` — both modelled by `Option` plus the caller's
nonemptiness check. -/
def fcpGo (events : List Event) (idx : Nat) : Nat → Nat → List Char → Option Str
  | 0, _, acc => if pstrip acc ≠ [] then some (pstrip acc) else none
  | f + 1, i, acc =>
    if i < idx then
      if i ≥ events.length then
        (if pstrip acc ≠ [] then some (pstrip acc) else none)
      else
        match events.getD i (0, [], []) with
        | (_, et, tx) =>
          if et ≠ "o".toList then fcpGo events idx f (i + 1) acc
          else if containsSub grayLit tx then fcpGo events idx f (i + 1) acc
          else
            match prefixChars (stripAnsi tx) acc with
            | Sum.inl r => some r
            | Sum.inr acc2 => fcpGo events idx f (i + 1) acc2
    else (if pstrip acc ≠ [] then some (pstrip acc) else none)

def findCmdPfx (events : List Event) (idx : Nat) : Option Str :=
  fcpGo events idx 21 (idx - 20) []

/-- The main loop of `DirectExtractor.process_events`
(`direct_extractor.py` 21-69).  The command filter at lines 59-65 is a
non-empty Python tuple (a stray comma follows the `E486/E387` clause), which
is always truthy, so the branch appends unconditionally once the outer
complete-command check passed. -/
def procGo (events : List Event) : Nat → Nat → List Cmd3 → List Cmd3
  | 0, _, cmds => cmds
  | f + 1, i, cmds =>
    if i < events.length then
      match events.getD i (0, [], []) with
      | (ts, et, tx) =>
        if et ≠ "o".toList then procGo events f (i + 1) cmds
        else
          let cmds :=
            if containsSub grayLit tx then
              match findAutocomplete tx with
              | some auto =>
                (match findCmdPfx events i with
                 | some pfx =>
                   if pfx ≠ [] then
                     let full := pstrip ((pfx ++ pstrip auto).filter
                       (fun c => 32 ≤ c.toNat ∧ c.toNat ≤ 126))
                     if full ≠ [] && full.length ≥ 3 && headAlpha full &&
                        (full.length > 10 || full.contains ' ') &&
                        !(cmds.any (fun c => c.1 = full)) then
                       cmds ++ [(full, findOutputForCommand events i, ts)]
                     else cmds
                   else cmds
                 | none => cmds)
              | none => cmds
            else cmds
          let clean := stripAnsi tx
          let cs := pstrip clean
          let cmds :=
            if clean.length > 5 && clean.length < 500 &&
               !(clean.contains '\x1b' || clean.contains '\r' || clean.contains '\n') &&
               cmdClassMatch cs &&
               (clean.contains ' ' || clean.length > 10) then
              cmds ++ [(cs, findOutputForCommand events i, ts)]
            else cmds
          procGo events f (i + 1) cmds
    else cmds

/-- Inner scan of `_extract_from_prompts` (`direct_extractor.py` 156-178):
after a prompt, look ahead up to 49 events for the first complete-command
shape, stopping at the next prompt. -/
def efpInner (events : List Event) (stop : Nat) : Nat → Nat → List Cmd3 → List Cmd3
  | 0, _, cmds => cmds
  | f + 1, j, cmds =>
    if j < stop then
      match events.getD j (0, [], []) with
      | (ts, et, tx) =>
        if et ≠ "o".toList then efpInner events stop f (j + 1) cmds
        else if promptSearch tx then cmds
        else
          let clean := stripAnsi tx
          let s := pstrip clean
          if s.length > 5 && s.length < 500 &&
             !(clean.contains '\x1b' || clean.contains '\r' || clean.contains '\n') &&
             s.contains ' ' && s.length > 0 && headAlpha s then
            (if !(cmds.any (fun c => c.1 = s)) then
              cmds ++ [(s, findOutputForCommand events j, ts)]
            else cmds)
          else efpInner events stop f (j + 1) cmds
    else cmds

/-- `DirectExtractor._extract_from_prompts` (`direct_extractor.py` 148-178). -/
def efpOuter (events : List Event) : Nat → Nat → List Cmd3 → List Cmd3
  | 0, _, cmds => cmds
  | f + 1, i, cmds =>
    if i < events.length then
      match events.getD i (0, [], []) with
      | (_, et, tx) =>
        if et = "o".toList && promptSearch tx then
          efpOuter events f (i + 1)
            (efpInner events (min (i + 50) events.length) 50 (i + 1) cmds)
        else efpOuter events f (i + 1) cmds
    else cmds

def singleWordCmds : List Str :=
  ["cd", "ls", "cp", "mv", "rm", "cat", "vim", "nano", "exit", "pwd",
   "whoami"].map String.toList

/-- `DirectExtractor._deduplicate_commands` (`direct_extractor.py` 81-115);
`seen` is a set of `(command, timestamp)` pairs used only through an
existential check, so a list is a faithful model. -/
def dedupGo : List Cmd3 → List (Str × Int) → List Cmd3
  | [], _ => []
  | (cmd, out, ts) :: rest, seen =>
    if cmd.length < 3 then dedupGo rest seen
    else if "E486".toList.isPrefixOf cmd || "E387".toList.isPrefixOf cmd then
      dedupGo rest seen
    else if !(cmd.contains ' ') && !(singleWordCmds.contains cmd) then
      dedupGo rest seen
    else if "The following".toList.isPrefixOf cmd ||
            containsSub "desirable for".toList cmd then dedupGo rest seen
    else if seen.any (fun p => p.1 = cmd && (p.2 - ts).natAbs < 2) then
      dedupGo rest seen
    else (cmd, out, ts) :: dedupGo rest ((cmd, ts) :: seen)

/-- `self.commands.sort(key=lambda x: x[2])` — Python's sort is stable, so a
stable insertion sort on the timestamp models it. -/
def insertByTs (x : Cmd3) : List Cmd3 → List Cmd3
  | [] => [x]
  | y :: ys => if y.2.2 < x.2.2 then y :: insertByTs x ys else x :: y :: ys

def sortByTs : List Cmd3 → List Cmd3
  | [] => []
  | x :: xs => insertByTs x (sortByTs xs)

/-- `DirectExtractor.process_events` (`direct_extractor.py` 16-79). -/
def processEventsDE (events : List Event) : List (Str × Str) :=
  (sortByTs (dedupGo (efpOuter events (events.length + 1) 0
    (procGo events (events.length + 1) 0 [])) [])).map (fun c => (c.1, c.2.1))

/-- The C1 scenario: the user has typed `a` then `p`, the shell renders the
gray (dim-styled) autocomplete suggestion `t-get install`, and Enter is
echoed before the suggestion is ever accepted. -/
def c1Events : List Event :=
  [(0, "o".toList, "a".toList),
   (1, "o".toList, "p".toList),
   (2, "o".toList, "\x1b[38;2;153;153;153mt-get install\x1b[0m".toList),
   (3, "o".toList, "\r\n".toList)]

/-- C1 (amended): `DirectExtractor` does not exclude dim-styled ghost text
from commands — it concatenates the typed prefix with the gray suggestion
run, so on the claimed scenario the emitted commands are `apt-get install`
(and the ANSI-stripped suggestion text `t-get install`), never the bare
typed prefix `ap`. -/
theorem C1_theorem :
    (processEventsDE c1Events).map Prod.fst =
      ["apt-get install".toList, "t-get install".toList] := by decide

/-- C1 counterexample: on the claimed scenario (typed `ap`, dim suggestion
`t-get install`, Enter before acceptance) the finalized records are
`apt-get install` and `t-get install` with empty outputs — no emitted
record has the command `ap` the claim requires. -/
theorem C1_counterexample :
    processEventsDE c1Events =
      [("apt-get install".toList, []), ("t-get install".toList, [])] ∧
    "ap".toList ∉ (processEventsDE c1Events).map Prod.fst := by decide
